import Mathlib

/-!
Verification of the elevator dispatch logic in `elevator.py` together with the
simulator `step` function of `test_elevator.py`.

The dispatcher state is the set of selected destination floors, the two
hall-call sets, and the current direction commitment (`directionality`).
The simulator additionally tracks the current floor and the motor direction,
which the logic reads and writes through its `callbacks` object; here the two
are combined into a single record `ElevatorState`.

Floors are modelled as integers (the Python code places no bound on the floor
values stored in the sets; the simulator asserts the current floor stays in
`[1, FLOOR_COUNT]`).  Python `assert` failures and `raise` statements are
modelled by `Option`-returning functions yielding `none`.
-/

set_option maxHeartbeats 1000000

/-- `UP = 1` in both source files. -/
def UP : ℤ := 1

/-- `DOWN = 2` in both source files. -/
def DOWN : ℤ := 2

/-- `FLOOR_COUNT = 6` in both source files. -/
def FLOOR_COUNT : ℤ := 6

/-- A committed travel direction.  The Python code represents directions by
the integers `UP = 1` and `DOWN = 2`, and "no direction" by `None`; we use
`Option Dir` for the latter. -/
inductive Dir where
  | up
  | down
deriving DecidableEq, Repr

/-- The combined state of `ElevatorLogic` (the three request sets and
`directionality`) and of the simulator visible through `callbacks`
(`current_floor`, `motor_direction`). -/
structure ElevatorState where
  requested_destinations : Finset ℤ
  requests_going_up : Finset ℤ
  requests_going_down : Finset ℤ
  directionality : Option Dir
  current_floor : ℤ
  motor_direction : Option Dir
deriving DecidableEq

/-- The union of the three request sets (the `stops` set that
`_current_destination` forms when `directionality is None`). -/
def allRequests (s : ElevatorState) : Finset ℤ :=
  s.requested_destinations ∪ s.requests_going_up ∪ s.requests_going_down

/-- `ElevatorLogic._direction_to`: direction from the current floor `c` to
`floor` (`UP` if below, `DOWN` if above, `None` if equal). -/
def direction_to (c floor : ℤ) : Option Dir :=
  if c < floor then some Dir.up
  else if floor < c then some Dir.down
  else none

/-- The floors of `allRequests` at minimal `floor_distance` from the current
floor (the argmins of `min(stops, key=floor_distance)`). -/
def idleNearest (s : ElevatorState) : Finset ℤ :=
  (allRequests s).filter fun f =>
    ∀ g ∈ allRequests s, |s.current_floor - f| ≤ |s.current_floor - g|

/-- `floors_up(requested_destinations | requests_going_up)`: the stops at or
above the current floor that keep an upward trip going forward. -/
def upForward (s : ElevatorState) : Finset ℤ :=
  (s.requested_destinations ∪ s.requests_going_up).filter fun f => s.current_floor ≤ f

/-- `floors_up(requests_going_down)`: the down-calls at or above the current
floor, reachable before an upward trip turns back. -/
def upTurnback (s : ElevatorState) : Finset ℤ :=
  s.requests_going_down.filter fun f => s.current_floor ≤ f

/-- `floors_down(requested_destinations | requests_going_down)`: the stops at
or below the current floor that keep a downward trip going forward. -/
def downForward (s : ElevatorState) : Finset ℤ :=
  (s.requested_destinations ∪ s.requests_going_down).filter fun f => f ≤ s.current_floor

/-- `floors_down(requests_going_up)`: the up-calls at or below the current
floor, reachable before a downward trip turns back. -/
def downTurnback (s : ElevatorState) : Finset ℤ :=
  s.requests_going_up.filter fun f => f ≤ s.current_floor

/-- The `directionality is None` branch of `_current_destination`:
`min(stops, key=floor_distance)` over the union of the three sets.  The
tie-break between equidistant floors is implementation-defined in the source
(iteration order of a Python set); it is modelled here as the least such
floor. -/
def destination_idle (s : ElevatorState) : Option ℤ :=
  if h : (idleNearest s).Nonempty then some ((idleNearest s).min' h) else none

/-- The `directionality == UP` branch of `_current_destination`:
the minimum of `floors_up(requested_destinations | requests_going_up)` if
non-empty, else the maximum of `floors_up(requests_going_down)` if non-empty,
else `None`. -/
def destination_up (s : ElevatorState) : Option ℤ :=
  if h : (upForward s).Nonempty then some ((upForward s).min' h)
  else if h : (upTurnback s).Nonempty then some ((upTurnback s).max' h)
  else none

/-- The `directionality == DOWN` branch of `_current_destination`:
the maximum of `floors_down(requested_destinations | requests_going_down)` if
non-empty, else the minimum of `floors_down(requests_going_up)` if non-empty,
else `None`. -/
def destination_down (s : ElevatorState) : Option ℤ :=
  if h : (downForward s).Nonempty then some ((downForward s).max' h)
  else if h : (downTurnback s).Nonempty then some ((downTurnback s).min' h)
  else none

/-- `ElevatorLogic._current_destination`. -/
def current_destination (s : ElevatorState) : Option ℤ :=
  match s.directionality with
  | none => destination_idle s
  | some Dir.up => destination_up s
  | some Dir.down => destination_down s

/-- `ElevatorLogic.on_called`: record a hall call.  The `direction` argument
is a raw integer, as in the source; a direction other than `UP` or `DOWN`
raises `ValueError`, modelled by `none`. -/
def on_called (s : ElevatorState) (floor direction : ℤ) : Option ElevatorState :=
  if direction = UP then
    some { s with requests_going_up := insert floor s.requests_going_up }
  else if direction = DOWN then
    some { s with requests_going_down := insert floor s.requests_going_down }
  else none

/-- `ElevatorLogic.on_floor_selected`: ignore the selection if it contradicts
the committed directionality, otherwise add it to the destination set. -/
def on_floor_selected (s : ElevatorState) (floor : ℤ) : ElevatorState :=
  if s.directionality ≠ none ∧ s.directionality ≠ direction_to s.current_floor floor then s
  else { s with requested_destinations := insert floor s.requested_destinations }

/-- The stop action of `on_floor_changed`: switch the motor off and discard
the current floor from all three request sets. -/
def discharge (s : ElevatorState) : ElevatorState :=
  { s with
    motor_direction := none
    requested_destinations := s.requested_destinations.erase s.current_floor
    requests_going_up := s.requests_going_up.erase s.current_floor
    requests_going_down := s.requests_going_down.erase s.current_floor }

/-- `ElevatorLogic.on_floor_changed`: the result is `none` when the
`assert destination is not None` fails.  On reaching the destination the
motor is stopped, the current floor is discarded from all three request sets,
and the directionality is dropped when no destination remains under it. -/
def on_floor_changed (s : ElevatorState) : Option ElevatorState :=
  match current_destination s with
  | none => none
  | some destination =>
    if s.current_floor = destination then
      if current_destination (discharge s) = none then
        some { discharge s with directionality := none }
      else some (discharge s)
    else some s

/-- The first half of `ElevatorLogic.on_ready`: when no destination is
reachable under a non-`None` directionality, release the commitment
(`directionality = None`), and if a destination now exists under the released
state, immediately re-commit to its direction. -/
def on_ready_release (s : ElevatorState) : ElevatorState :=
  if current_destination s = none ∧ s.directionality ≠ none then
    match current_destination { s with directionality := none } with
    | some nd => { s with directionality := direction_to s.current_floor nd }
    | none => { s with directionality := none }
  else s

/-- `ElevatorLogic.on_ready`: after the release/re-acquire step, either
continue in the committed direction, commit and start towards the computed
destination, or go idle. -/
def on_ready (s : ElevatorState) : ElevatorState :=
  match current_destination (on_ready_release s), (on_ready_release s).directionality with
  | some _, some d => { on_ready_release s with motor_direction := some d }
  | some destination, none =>
    { on_ready_release s with
      directionality := direction_to (on_ready_release s).current_floor destination
      motor_direction := direction_to (on_ready_release s).current_floor destination }
  | none, _ => { on_ready_release s with directionality := none }

/-- The per-step displacement of `Elevator.step` in `test_elevator.py`. -/
def stepDelta : Option Dir → ℤ
  | some Dir.up => 1
  | some Dir.down => -1
  | none => 0

/-- The two bounds asserts at the end of `Elevator.step`: the current floor
must stay in `[1, FLOOR_COUNT]`. -/
def checkBounds (s : ElevatorState) : Option ElevatorState :=
  if 1 ≤ s.current_floor ∧ s.current_floor ≤ FLOOR_COUNT then some s else none

/-- `Elevator.step` of `test_elevator.py`: move one floor and notify the
logic if the motor is running, otherwise give the logic a chance to start;
then assert the current floor is in `[1, FLOOR_COUNT]`.  `none` models a
failed assertion (either the bounds asserts or the destination assert inside
`on_floor_changed`). -/
def step (s : ElevatorState) : Option ElevatorState :=
  if stepDelta s.motor_direction ≠ 0 then
    (on_floor_changed
      { s with current_floor := s.current_floor + stepDelta s.motor_direction }).bind
      checkBounds
  else checkBounds (on_ready s)

/-- The state of `Elevator(ElevatorLogic())`: empty request sets, no
directionality, first floor, motor stopped. -/
def initialState : ElevatorState :=
  { requested_destinations := ∅
    requests_going_up := ∅
    requests_going_down := ∅
    directionality := none
    current_floor := 1
    motor_direction := none }

/-- An external event fed to the simulator: a hall call, a floor selection,
or one simulation step. -/
inductive Event where
  | call (floor direction : ℤ)
  | select (floor : ℤ)
  | step
deriving DecidableEq, Repr

/-- Apply one event (`Elevator.call`, `Elevator.select_floor`, or
`Elevator.step`). -/
def applyEvent (s : ElevatorState) : Event → Option ElevatorState
  | Event.call floor direction => on_called s floor direction
  | Event.select floor => some (on_floor_selected s floor)
  | Event.step => step s

/-- Run a list of events from a state, failing if any event fails. -/
def runEvents (s : ElevatorState) : List Event → Option ElevatorState
  | [] => some s
  | e :: es =>
    match applyEvent s e with
    | none => none
    | some s' => runEvents s' es

/-- A valid event: calls and selections use floors in `[1, FLOOR_COUNT]` and
call directions are `UP` or `DOWN`. -/
def ValidEvent : Event → Prop
  | Event.call floor direction =>
      1 ≤ floor ∧ floor ≤ FLOOR_COUNT ∧ (direction = UP ∨ direction = DOWN)
  | Event.select floor => 1 ≤ floor ∧ floor ≤ FLOOR_COUNT
  | Event.step => True

instance : DecidablePred ValidEvent := by
  intro e
  cases e <;> simp only [ValidEvent] <;> infer_instance

/-- A dispatcher-only event, used for the starvation analysis: `on_ready`
stands for a decision point with the motor already stopped. -/
inductive UserEvent where
  | call (floor direction : ℤ)
  | select (floor : ℤ)
  | ready
deriving DecidableEq, Repr

/-- Apply one dispatcher-only event. -/
def applyUserEvent (s : ElevatorState) : UserEvent → Option ElevatorState
  | UserEvent.call floor direction => on_called s floor direction
  | UserEvent.select floor => some (on_floor_selected s floor)
  | UserEvent.ready => some (on_ready s)

/-- Run a list of dispatcher-only events. -/
def runUserEvents (s : ElevatorState) : List UserEvent → Option ElevatorState
  | [] => some s
  | e :: es =>
    match applyUserEvent s e with
    | none => none
    | some s' => runUserEvents s' es

/-- A valid dispatcher-only event: call directions are `UP` or `DOWN`. -/
def ValidUserEvent : UserEvent → Prop
  | UserEvent.call _ direction => direction = UP ∨ direction = DOWN
  | UserEvent.select _ => True
  | UserEvent.ready => True

-- Sanity checks against the scenarios of `README.md` / `test_elevator.py`.
-- `call(5, DOWN)` from the first floor: the elevator visits 2, 3, 4, 5 and
-- stops there with all requests cleared and directionality released.
example :
    runEvents initialState
      [Event.call 5 DOWN, Event.step, Event.step, Event.step, Event.step, Event.step] =
    some { requested_destinations := ∅
           requests_going_up := ∅
           requests_going_down := ∅
           directionality := none
           current_floor := 5
           motor_direction := none } := by decide

-- `call(2, DOWN); select_floor(5)` from the first floor: the first stop is
-- floor 5, passing floor 2 (the upward commitment wins).
example :
    (runEvents initialState
      [Event.call 2 DOWN, Event.select 5, Event.step, Event.step, Event.step,
       Event.step, Event.step]).map ElevatorState.current_floor = some 5 := by decide

/-- The reachability invariant of the simulation: the current floor is in
range, every pending request is a floor in range, the motor is off or agrees
with the directionality, and a committed direction always has a pending
request strictly ahead of the current floor. -/
def SimInv (s : ElevatorState) : Prop :=
  (1 ≤ s.current_floor ∧ s.current_floor ≤ FLOOR_COUNT) ∧
  (∀ f ∈ allRequests s, 1 ≤ f ∧ f ≤ FLOOR_COUNT) ∧
  (s.motor_direction = none ∨ s.motor_direction = s.directionality) ∧
  (s.directionality = some Dir.up → ∃ f ∈ allRequests s, s.current_floor < f) ∧
  (s.directionality = some Dir.down → ∃ f ∈ allRequests s, f < s.current_floor)

/-- A deadlocked dispatcher: idle (no directionality, motor off) while the
current floor itself is a pending request, so the nearest destination is the
current floor and `on_ready` never starts the motor again. -/
def Deadlocked (s : ElevatorState) : Prop :=
  s.directionality = none ∧ s.motor_direction = none ∧
    s.current_floor ∈ allRequests s

/-- The state reached from `initialState` by `call(1, UP)`: an up hall call
at the current floor of the idle elevator.  `step` maps this state to
itself, so the call is never serviced. -/
def starvedState : ElevatorState :=
  { requested_destinations := ∅
    requests_going_up := {1}
    requests_going_down := ∅
    directionality := none
    current_floor := 1
    motor_direction := none }

/-! ### Membership in the candidate sets -/

theorem mem_allRequests {s : ElevatorState} {t : ℤ} :
    t ∈ allRequests s ↔
      t ∈ s.requested_destinations ∨ t ∈ s.requests_going_up ∨
        t ∈ s.requests_going_down := by
  simp [allRequests, Finset.mem_union, or_assoc]

theorem idleNearest_subset_allRequests (s : ElevatorState) :
    idleNearest s ⊆ allRequests s := by
  intro t ht
  simp only [idleNearest, Finset.mem_filter] at ht
  exact ht.1

theorem upForward_subset_allRequests (s : ElevatorState) : upForward s ⊆ allRequests s := by
  intro t ht
  simp only [upForward, Finset.mem_filter, Finset.mem_union] at ht
  exact mem_allRequests.mpr (by tauto)

theorem upTurnback_subset_allRequests (s : ElevatorState) : upTurnback s ⊆ allRequests s := by
  intro t ht
  simp only [upTurnback, Finset.mem_filter] at ht
  exact mem_allRequests.mpr (by tauto)

theorem downForward_subset_allRequests (s : ElevatorState) : downForward s ⊆ allRequests s := by
  intro t ht
  simp only [downForward, Finset.mem_filter, Finset.mem_union] at ht
  exact mem_allRequests.mpr (by tauto)

theorem downTurnback_subset_allRequests (s : ElevatorState) : downTurnback s ⊆ allRequests s := by
  intro t ht
  simp only [downTurnback, Finset.mem_filter] at ht
  exact mem_allRequests.mpr (by tauto)

/-! ### Unfolding `current_destination` by directionality -/

theorem current_destination_of_none {s : ElevatorState} (h : s.directionality = none) :
    current_destination s = destination_idle s := by
  unfold current_destination
  rw [h]

theorem current_destination_of_up {s : ElevatorState} (h : s.directionality = some Dir.up) :
    current_destination s = destination_up s := by
  unfold current_destination
  rw [h]

theorem current_destination_of_down {s : ElevatorState} (h : s.directionality = some Dir.down) :
    current_destination s = destination_down s := by
  unfold current_destination
  rw [h]

/-! ### Characterization of each destination branch -/

theorem destination_idle_eq_none_iff (s : ElevatorState) :
    destination_idle s = none ↔ allRequests s = ∅ := by
  unfold destination_idle
  split
  case isTrue h =>
    simp only [reduceCtorEq, false_iff]
    intro he
    have := (idleNearest_subset_allRequests s) (Finset.min'_mem _ h)
    rw [he] at this
    exact absurd this (Finset.not_mem_empty _)
  case isFalse h =>
    simp only [true_iff]
    by_contra he
    have hne : (allRequests s).Nonempty := Finset.nonempty_iff_ne_empty.mpr he
    obtain ⟨b, hb, hmin⟩ := Finset.exists_min_image (allRequests s)
      (fun f => |s.current_floor - f|) hne
    exact h ⟨b, Finset.mem_filter.mpr ⟨hb, hmin⟩⟩

theorem destination_idle_spec {s : ElevatorState} {t : ℤ}
    (h : destination_idle s = some t) :
    t ∈ allRequests s ∧ ∀ g ∈ allRequests s, |s.current_floor - t| ≤ |s.current_floor - g| := by
  unfold destination_idle at h
  split at h
  case isTrue hne =>
    obtain rfl : (idleNearest s).min' hne = t := by injection h
    have hm := Finset.min'_mem _ hne
    simp only [idleNearest, Finset.mem_filter] at hm
    exact hm
  case isFalse hne => exact absurd h (by simp)

theorem destination_up_eq_none_iff (s : ElevatorState) :
    destination_up s = none ↔ upForward s = ∅ ∧ upTurnback s = ∅ := by
  unfold destination_up
  split
  case isTrue h => simp [h.ne_empty]
  case isFalse h =>
    split
    case isTrue h2 => simp [h2.ne_empty]
    case isFalse h2 =>
      simp [Finset.not_nonempty_iff_eq_empty.mp h, Finset.not_nonempty_iff_eq_empty.mp h2]

theorem destination_up_spec {s : ElevatorState} {t : ℤ}
    (h : destination_up s = some t) :
    (t ∈ upForward s ∧ ∀ g ∈ upForward s, t ≤ g) ∨
      (upForward s = ∅ ∧ t ∈ upTurnback s ∧ ∀ g ∈ upTurnback s, g ≤ t) := by
  unfold destination_up at h
  split at h
  case isTrue hne =>
    obtain rfl : (upForward s).min' hne = t := by injection h
    exact Or.inl ⟨Finset.min'_mem _ hne, fun g hg => Finset.min'_le _ g hg⟩
  case isFalse hne =>
    split at h
    case isTrue hne2 =>
      obtain rfl : (upTurnback s).max' hne2 = t := by injection h
      exact Or.inr ⟨Finset.not_nonempty_iff_eq_empty.mp hne, Finset.max'_mem _ hne2,
        fun g hg => Finset.le_max' _ g hg⟩
    case isFalse hne2 => exact absurd h (by simp)

theorem destination_down_eq_none_iff (s : ElevatorState) :
    destination_down s = none ↔ downForward s = ∅ ∧ downTurnback s = ∅ := by
  unfold destination_down
  split
  case isTrue h => simp [h.ne_empty]
  case isFalse h =>
    split
    case isTrue h2 => simp [h2.ne_empty]
    case isFalse h2 =>
      simp [Finset.not_nonempty_iff_eq_empty.mp h, Finset.not_nonempty_iff_eq_empty.mp h2]

theorem destination_down_spec {s : ElevatorState} {t : ℤ}
    (h : destination_down s = some t) :
    (t ∈ downForward s ∧ ∀ g ∈ downForward s, g ≤ t) ∨
      (downForward s = ∅ ∧ t ∈ downTurnback s ∧ ∀ g ∈ downTurnback s, t ≤ g) := by
  unfold destination_down at h
  split at h
  case isTrue hne =>
    obtain rfl : (downForward s).max' hne = t := by injection h
    exact Or.inl ⟨Finset.max'_mem _ hne, fun g hg => Finset.le_max' _ g hg⟩
  case isFalse hne =>
    split at h
    case isTrue hne2 =>
      obtain rfl : (downTurnback s).min' hne2 = t := by injection h
      exact Or.inr ⟨Finset.not_nonempty_iff_eq_empty.mp hne, Finset.min'_mem _ hne2,
        fun g hg => Finset.min'_le _ g hg⟩
    case isFalse hne2 => exact absurd h (by simp)

/-! ### Corollaries used throughout -/

theorem current_destination_mem {s : ElevatorState} {t : ℤ}
    (h : current_destination s = some t) : t ∈ allRequests s := by
  unfold current_destination at h
  match hd : s.directionality with
  | none =>
    rw [hd] at h
    exact (destination_idle_spec h).1
  | some Dir.up =>
    rw [hd] at h
    rcases destination_up_spec h with ⟨hm, -⟩ | ⟨-, hm, -⟩
    · exact upForward_subset_allRequests s hm
    · exact upTurnback_subset_allRequests s hm
  | some Dir.down =>
    rw [hd] at h
    rcases destination_down_spec h with ⟨hm, -⟩ | ⟨-, hm, -⟩
    · exact downForward_subset_allRequests s hm
    · exact downTurnback_subset_allRequests s hm

theorem current_destination_up_le {s : ElevatorState} {t : ℤ}
    (hd : s.directionality = some Dir.up) (h : current_destination s = some t) :
    s.current_floor ≤ t := by
  rw [current_destination_of_up hd] at h
  rcases destination_up_spec h with ⟨hm, -⟩ | ⟨-, hm, -⟩
  · exact (Finset.mem_filter.mp hm).2
  · exact (Finset.mem_filter.mp hm).2

theorem current_destination_down_le {s : ElevatorState} {t : ℤ}
    (hd : s.directionality = some Dir.down) (h : current_destination s = some t) :
    t ≤ s.current_floor := by
  rw [current_destination_of_down hd] at h
  rcases destination_down_spec h with ⟨hm, -⟩ | ⟨-, hm, -⟩
  · exact (Finset.mem_filter.mp hm).2
  · exact (Finset.mem_filter.mp hm).2

theorem destination_up_isSome {s : ElevatorState} {f : ℤ}
    (hf : f ∈ allRequests s) (hcf : s.current_floor ≤ f) :
    ∃ t, destination_up s = some t := by
  unfold destination_up
  rcases mem_allRequests.mp hf with hm | hm | hm
  · have : (upForward s).Nonempty :=
      ⟨f, Finset.mem_filter.mpr ⟨Finset.mem_union_left _ hm, hcf⟩⟩
    rw [dif_pos this]
    exact ⟨_, rfl⟩
  · have : (upForward s).Nonempty :=
      ⟨f, Finset.mem_filter.mpr ⟨Finset.mem_union_right _ hm, hcf⟩⟩
    rw [dif_pos this]
    exact ⟨_, rfl⟩
  · by_cases h1 : (upForward s).Nonempty
    · rw [dif_pos h1]
      exact ⟨_, rfl⟩
    · have h2 : (upTurnback s).Nonempty := ⟨f, Finset.mem_filter.mpr ⟨hm, hcf⟩⟩
      rw [dif_neg h1, dif_pos h2]
      exact ⟨_, rfl⟩

theorem destination_down_isSome {s : ElevatorState} {f : ℤ}
    (hf : f ∈ allRequests s) (hcf : f ≤ s.current_floor) :
    ∃ t, destination_down s = some t := by
  unfold destination_down
  rcases mem_allRequests.mp hf with hm | hm | hm
  · have : (downForward s).Nonempty :=
      ⟨f, Finset.mem_filter.mpr ⟨Finset.mem_union_left _ hm, hcf⟩⟩
    rw [dif_pos this]
    exact ⟨_, rfl⟩
  · by_cases h1 : (downForward s).Nonempty
    · rw [dif_pos h1]
      exact ⟨_, rfl⟩
    · have h2 : (downTurnback s).Nonempty := ⟨f, Finset.mem_filter.mpr ⟨hm, hcf⟩⟩
      rw [dif_neg h1, dif_pos h2]
      exact ⟨_, rfl⟩
  · have : (downForward s).Nonempty :=
      ⟨f, Finset.mem_filter.mpr ⟨Finset.mem_union_right _ hm, hcf⟩⟩
    rw [dif_pos this]
    exact ⟨_, rfl⟩

theorem destination_idle_of_mem_current {s : ElevatorState}
    (h : s.current_floor ∈ allRequests s) :
    destination_idle s = some s.current_floor := by
  have hc : s.current_floor ∈ idleNearest s := by
    refine Finset.mem_filter.mpr ⟨h, fun g hg => ?_⟩
    simp only [sub_self, abs_zero]
    exact abs_nonneg _
  have hone : ∀ f ∈ idleNearest s, f = s.current_floor := by
    intro f hf
    have hle := (Finset.mem_filter.mp hf).2 s.current_floor h
    simp only [sub_self, abs_zero] at hle
    have : |s.current_floor - f| = 0 := le_antisymm hle (abs_nonneg _)
    have := abs_eq_zero.mp this
    linarith
  unfold destination_idle
  rw [dif_pos ⟨s.current_floor, hc⟩]
  exact congrArg some (hone _ (Finset.min'_mem _ _))

/-! ### Unfolding the handlers -/

theorem on_floor_changed_of_none {s : ElevatorState}
    (h : current_destination s = none) : on_floor_changed s = none := by
  unfold on_floor_changed
  rw [h]

theorem on_floor_changed_of_some {s : ElevatorState} {d : ℤ}
    (h : current_destination s = some d) :
    on_floor_changed s =
      if s.current_floor = d then
        if current_destination (discharge s) = none then
          some { discharge s with directionality := none }
        else some (discharge s)
      else some s := by
  unfold on_floor_changed
  rw [h]

theorem on_ready_release_of_skip {s : ElevatorState}
    (h : ¬(current_destination s = none ∧ s.directionality ≠ none)) :
    on_ready_release s = s := by
  unfold on_ready_release
  rw [if_neg h]

theorem on_ready_release_of_reacquire {s : ElevatorState} {nd : ℤ}
    (h1 : current_destination s = none) (h2 : s.directionality ≠ none)
    (h3 : current_destination { s with directionality := none } = some nd) :
    on_ready_release s = { s with directionality := direction_to s.current_floor nd } := by
  unfold on_ready_release
  rw [if_pos ⟨h1, h2⟩, h3]

theorem on_ready_release_of_idle {s : ElevatorState}
    (h1 : current_destination s = none) (h2 : s.directionality ≠ none)
    (h3 : current_destination { s with directionality := none } = none) :
    on_ready_release s = { s with directionality := none } := by
  unfold on_ready_release
  rw [if_pos ⟨h1, h2⟩, h3]

theorem on_ready_of_some_some {s : ElevatorState} {t : ℤ} {d : Dir}
    (h1 : current_destination (on_ready_release s) = some t)
    (h2 : (on_ready_release s).directionality = some d) :
    on_ready s = { on_ready_release s with motor_direction := some d } := by
  unfold on_ready
  rw [h1, h2]

theorem on_ready_of_some_none {s : ElevatorState} {t : ℤ}
    (h1 : current_destination (on_ready_release s) = some t)
    (h2 : (on_ready_release s).directionality = none) :
    on_ready s =
      { on_ready_release s with
        directionality := direction_to (on_ready_release s).current_floor t
        motor_direction := direction_to (on_ready_release s).current_floor t } := by
  unfold on_ready
  rw [h1, h2]

theorem on_ready_of_none {s : ElevatorState}
    (h : current_destination (on_ready_release s) = none) :
    on_ready s = { on_ready_release s with directionality := none } := by
  unfold on_ready
  rw [h]

/-! ### The claims -/

/-- C1: `_current_destination` returns: when directionality is `None`, `none`
iff all three request sets are empty, and otherwise a member of their union
whose absolute distance to the current floor is minimal (tie-break
unspecified); when committed `Up`, the minimum of the forward candidates
`(destinations ∪ up-calls) ∩ {f : f ≥ c}` if non-empty, else the maximum of
the turn-back candidates `down-calls ∩ {f : f ≥ c}` if non-empty, else
`none`; when committed `Down`, symmetrically with the inequalities and
min/max exchanged. -/
theorem current_destination_characterization (s : ElevatorState) :
    (s.directionality = none →
      (current_destination s = none ↔ allRequests s = ∅) ∧
      ∀ t, current_destination s = some t →
        t ∈ allRequests s ∧
          ∀ g ∈ allRequests s, |s.current_floor - t| ≤ |s.current_floor - g|) ∧
    (s.directionality = some Dir.up →
      (current_destination s = none ↔ upForward s = ∅ ∧ upTurnback s = ∅) ∧
      ∀ t, current_destination s = some t →
        (t ∈ upForward s ∧ ∀ g ∈ upForward s, t ≤ g) ∨
          (upForward s = ∅ ∧ t ∈ upTurnback s ∧ ∀ g ∈ upTurnback s, g ≤ t)) ∧
    (s.directionality = some Dir.down →
      (current_destination s = none ↔ downForward s = ∅ ∧ downTurnback s = ∅) ∧
      ∀ t, current_destination s = some t →
        (t ∈ downForward s ∧ ∀ g ∈ downForward s, g ≤ t) ∨
          (downForward s = ∅ ∧ t ∈ downTurnback s ∧ ∀ g ∈ downTurnback s, t ≤ g)) := by
  refine ⟨fun hd => ⟨?_, fun t ht => ?_⟩, fun hd => ⟨?_, fun t ht => ?_⟩,
    fun hd => ⟨?_, fun t ht => ?_⟩⟩
  · rw [current_destination_of_none hd]
    exact destination_idle_eq_none_iff s
  · rw [current_destination_of_none hd] at ht
    exact destination_idle_spec ht
  · rw [current_destination_of_up hd]
    exact destination_up_eq_none_iff s
  · rw [current_destination_of_up hd] at ht
    exact destination_up_spec ht
  · rw [current_destination_of_down hd]
    exact destination_down_eq_none_iff s
  · rw [current_destination_of_down hd] at ht
    exact destination_down_spec ht

/-- Witness for C1: idle at floor 1 with an up hall call at floor 5, the
computed destination's distance bound holds for floor 5. -/
theorem current_destination_characterization_witness :
    (5:ℤ) ∈ allRequests
        { requested_destinations := ∅, requests_going_up := {5}, requests_going_down := ∅,
          directionality := none, current_floor := 1, motor_direction := none } ∧
    ∀ g ∈ allRequests
        { requested_destinations := ∅, requests_going_up := {5}, requests_going_down := ∅,
          directionality := none, current_floor := 1, motor_direction := none },
      |(1:ℤ) - 5| ≤ |1 - g| := by
  have h := ((current_destination_characterization
    { requested_destinations := ∅, requests_going_up := {5}, requests_going_down := ∅,
      directionality := none, current_floor := 1, motor_direction := none }).1
      rfl).2 5 (by decide)
  exact h

/-- C2: with a computable destination, `on_floor_changed` does nothing when
the current floor differs from it; when equal it stops the motor, discards
the current floor from all three request sets, and clears directionality
exactly when the recomputation under the unchanged directionality yields no
destination. -/
theorem on_floor_changed_spec (s : ElevatorState) (d : ℤ)
    (h : current_destination s = some d) :
    (s.current_floor ≠ d → on_floor_changed s = some s) ∧
    (s.current_floor = d →
      ∃ s', on_floor_changed s = some s' ∧
        s'.motor_direction = none ∧
        s'.current_floor = s.current_floor ∧
        s'.requested_destinations = s.requested_destinations.erase s.current_floor ∧
        s'.requests_going_up = s.requests_going_up.erase s.current_floor ∧
        s'.requests_going_down = s.requests_going_down.erase s.current_floor ∧
        (current_destination { s' with directionality := s.directionality } = none →
          s'.directionality = none) ∧
        (current_destination { s' with directionality := s.directionality } ≠ none →
          s'.directionality = s.directionality)) := by
  rw [on_floor_changed_of_some h]
  constructor
  · intro hne
    rw [if_neg hne]
  · intro heq
    rw [if_pos heq]
    by_cases hc : current_destination (discharge s) = none
    · rw [if_pos hc]
      exact ⟨_, rfl, rfl, rfl, rfl, rfl, rfl, fun _ => rfl, fun hcon => absurd hc hcon⟩
    · rw [if_neg hc]
      exact ⟨_, rfl, rfl, rfl, rfl, rfl, rfl, fun hcon => absurd hcon hc, fun _ => rfl⟩

/-- Witness for C2: heading up from floor 2 towards the selected floor 5,
`on_floor_changed` changes nothing. -/
theorem on_floor_changed_spec_witness :
    on_floor_changed
        { requested_destinations := {5}, requests_going_up := ∅, requests_going_down := ∅,
          directionality := some Dir.up, current_floor := 2, motor_direction := some Dir.up } =
      some
        { requested_destinations := {5}, requests_going_up := ∅, requests_going_down := ∅,
          directionality := some Dir.up, current_floor := 2, motor_direction := some Dir.up } :=
  (on_floor_changed_spec
    { requested_destinations := {5}, requests_going_up := ∅, requests_going_down := ∅,
      directionality := some Dir.up, current_floor := 2, motor_direction := some Dir.up }
    5 (by decide)).1 (by decide)

/-- C3: `on_ready` first performs the release/re-acquire step: with no
destination computable under a non-`None` directionality it releases the
commitment, recomputes, and re-commits to the direction of the new
destination when one exists.  It then recomputes the destination once more:
with a destination and a commitment it commands the motor in the committed
direction; with a destination and no commitment it commits to and commands
the direction to that destination; with no destination it leaves the
directionality `None` and issues no motor command. -/
theorem on_ready_spec (s : ElevatorState) :
    (¬(current_destination s = none ∧ s.directionality ≠ none) →
      on_ready_release s = s) ∧
    (current_destination s = none → s.directionality ≠ none →
      (∀ nd, current_destination { s with directionality := none } = some nd →
        on_ready_release s = { s with directionality := direction_to s.current_floor nd }) ∧
      (current_destination { s with directionality := none } = none →
        on_ready_release s = { s with directionality := none })) ∧
    (∀ t d, current_destination (on_ready_release s) = some t →
      (on_ready_release s).directionality = some d →
      on_ready s = { on_ready_release s with motor_direction := some d }) ∧
    (∀ t, current_destination (on_ready_release s) = some t →
      (on_ready_release s).directionality = none →
      on_ready s =
        { on_ready_release s with
          directionality := direction_to (on_ready_release s).current_floor t
          motor_direction := direction_to (on_ready_release s).current_floor t }) ∧
    (current_destination (on_ready_release s) = none →
      on_ready s = { on_ready_release s with directionality := none }) := by
  refine ⟨on_ready_release_of_skip, fun h1 h2 => ⟨fun nd h3 => ?_, fun h3 => ?_⟩,
    fun t d h1 h2 => on_ready_of_some_some h1 h2,
    fun t h1 h2 => on_ready_of_some_none h1 h2,
    fun h => on_ready_of_none h⟩
  · exact on_ready_release_of_reacquire h1 h2 h3
  · exact on_ready_release_of_idle h1 h2 h3

/-- Witness for C3: idle at floor 1 with an up hall call at floor 5,
`on_ready` commits to going up and starts the motor. -/
theorem on_ready_spec_witness :
    on_ready
        { requested_destinations := ∅, requests_going_up := {5}, requests_going_down := ∅,
          directionality := none, current_floor := 1, motor_direction := none } =
      { on_ready_release
          { requested_destinations := ∅, requests_going_up := {5}, requests_going_down := ∅,
            directionality := none, current_floor := 1, motor_direction := none } with
        directionality :=
          direction_to
            (on_ready_release
              { requested_destinations := ∅, requests_going_up := {5},
                requests_going_down := ∅, directionality := none, current_floor := 1,
                motor_direction := none }).current_floor 5
        motor_direction :=
          direction_to
            (on_ready_release
              { requested_destinations := ∅, requests_going_up := {5},
                requests_going_down := ∅, directionality := none, current_floor := 1,
                motor_direction := none }).current_floor 5 } :=
  (on_ready_spec
    { requested_destinations := ∅, requests_going_up := {5}, requests_going_down := ∅,
      directionality := none, current_floor := 1,
      motor_direction := none }).2.2.2.1 5 (by decide) (by decide)

/-- C4: `on_floor_selected` silently drops a request that disagrees with a
committed directionality (including a request for the current floor while
committed) and otherwise adds the floor to the destination set, changing
nothing else. -/
theorem on_floor_selected_spec (s : ElevatorState) (floor : ℤ) :
    (s.directionality ≠ none → s.directionality ≠ direction_to s.current_floor floor →
      on_floor_selected s floor = s) ∧
    (∀ d, s.directionality = some d → on_floor_selected s s.current_floor = s) ∧
    (s.directionality = none ∨ s.directionality = direction_to s.current_floor floor →
      on_floor_selected s floor =
        { s with requested_destinations := insert floor s.requested_destinations }) := by
  refine ⟨fun h1 h2 => ?_, fun d hd => ?_, fun h => ?_⟩
  · unfold on_floor_selected
    rw [if_pos ⟨h1, h2⟩]
  · have hdt : direction_to s.current_floor s.current_floor = none := by
      simp [direction_to]
    unfold on_floor_selected
    rw [if_pos ⟨by simp [hd], by simp [hd, hdt]⟩]
  · unfold on_floor_selected
    rw [if_neg]
    push_neg
    intro h1
    rcases h with h | h
    · exact absurd h h1
    · exact h

/-- Witness for C4: committed up at floor 3, a selection of floor 2 is
dropped; idle, a selection of floor 4 is stored. -/
theorem on_floor_selected_spec_witness :
    on_floor_selected
        { requested_destinations := ∅, requests_going_up := ∅, requests_going_down := ∅,
          directionality := some Dir.up, current_floor := 3,
          motor_direction := none } 2 =
      { requested_destinations := ∅, requests_going_up := ∅, requests_going_down := ∅,
        directionality := some Dir.up, current_floor := 3, motor_direction := none } ∧
    on_floor_selected initialState 4 =
      { initialState with
        requested_destinations := insert 4 initialState.requested_destinations } := by
  constructor
  · exact (on_floor_selected_spec
      { requested_destinations := ∅, requests_going_up := ∅, requests_going_down := ∅,
        directionality := some Dir.up, current_floor := 3,
        motor_direction := none } 2).1 (by decide) (by decide)
  · exact (on_floor_selected_spec initialState 4).2.2 (Or.inl rfl)

/-- C10: `on_called` unconditionally records the hall call in the set for the
given direction, changing nothing else; any direction other than `UP` or
`DOWN` is a `ValueError` and records nothing. -/
theorem on_called_spec (s : ElevatorState) (floor direction : ℤ) :
    (direction = UP → on_called s floor direction =
      some { s with requests_going_up := insert floor s.requests_going_up }) ∧
    (direction = DOWN → on_called s floor direction =
      some { s with requests_going_down := insert floor s.requests_going_down }) ∧
    (direction ≠ UP → direction ≠ DOWN → on_called s floor direction = none) := by
  refine ⟨fun h => ?_, fun h => ?_, fun h1 h2 => ?_⟩
  · unfold on_called
    rw [if_pos h]
  · have hne : direction ≠ UP := by
      rw [h]
      decide
    unfold on_called
    rw [if_neg hne, if_pos h]
  · unfold on_called
    rw [if_neg h1, if_neg h2]

/-- Witness for C10: a call with direction `UP` is stored in the up set, a
call with direction `7` is rejected. -/
theorem on_called_spec_witness :
    on_called initialState 3 UP =
      some { initialState with
             requests_going_up := insert 3 initialState.requests_going_up } ∧
    on_called initialState 3 7 = none :=
  ⟨(on_called_spec initialState 3 UP).1 rfl,
   (on_called_spec initialState 3 7).2.2 (by decide) (by decide)⟩

/-! ### Stopping discards the current floor -/

theorem allRequests_dir_update (s : ElevatorState) (d : Option Dir) :
    allRequests { s with directionality := d } = allRequests s := rfl

theorem current_floor_not_mem_discharge (s : ElevatorState) :
    s.current_floor ∉ allRequests (discharge s) := by
  simp [discharge, allRequests, Finset.mem_union, Finset.mem_erase]

theorem current_destination_ne_of_not_mem {s : ElevatorState} {t : ℤ}
    (h : current_destination s = some t) (hnm : s.current_floor ∉ allRequests s) :
    t ≠ s.current_floor := fun he => hnm (he ▸ current_destination_mem h)

/-- C9: stopping at a floor removes it from all three request sets; in the
resulting state, under any directionality, a recomputed destination is a
different floor or none, so a subsequent `on_floor_changed` at the same
unchanged floor never re-enters the stop branch. -/
theorem idempotent_stop (s s' : ElevatorState)
    (h : current_destination s = some s.current_floor)
    (hs' : on_floor_changed s = some s') :
    s.current_floor ∉ s'.requested_destinations ∧
    s.current_floor ∉ s'.requests_going_up ∧
    s.current_floor ∉ s'.requests_going_down ∧
    (∀ d t, current_destination { s' with directionality := d } = some t →
      t ≠ s.current_floor) ∧
    (∀ d, on_floor_changed { s' with directionality := d } = none ∨
      on_floor_changed { s' with directionality := d } =
        some { s' with directionality := d }) := by
  rw [on_floor_changed_of_some h, if_pos rfl] at hs'
  have huniv : ∀ d : Option Dir,
      ({ s' with directionality := d } : ElevatorState).current_floor = s.current_floor ∧
      allRequests { s' with directionality := d } = allRequests (discharge s) ∧
      s'.requested_destinations = s.requested_destinations.erase s.current_floor ∧
      s'.requests_going_up = s.requests_going_up.erase s.current_floor ∧
      s'.requests_going_down = s.requests_going_down.erase s.current_floor := by
    intro d
    by_cases hc : current_destination (discharge s) = none
    · rw [if_pos hc] at hs'
      obtain rfl : ({ discharge s with directionality := none } : ElevatorState) = s' := by
        injection hs'
      exact ⟨rfl, rfl, rfl, rfl, rfl⟩
    · rw [if_neg hc] at hs'
      obtain rfl : discharge s = s' := by injection hs'
      exact ⟨rfl, rfl, rfl, rfl, rfl⟩
  obtain ⟨hfl, hall, hd1, hd2, hd3⟩ := huniv none
  have hne : ∀ d t, current_destination { s' with directionality := d } = some t →
      t ≠ s.current_floor := by
    intro d t ht
    have := current_destination_ne_of_not_mem ht
      (by rw [(huniv d).2.1, (huniv d).1]; exact current_floor_not_mem_discharge s)
    rwa [(huniv d).1] at this
  refine ⟨?_, ?_, ?_, hne, ?_⟩
  · rw [hd1]; exact Finset.not_mem_erase _ _
  · rw [hd2]; exact Finset.not_mem_erase _ _
  · rw [hd3]; exact Finset.not_mem_erase _ _
  · intro d
    cases hdd : current_destination { s' with directionality := d } with
    | none => exact Or.inl (on_floor_changed_of_none hdd)
    | some t =>
      refine Or.inr ?_
      rw [on_floor_changed_of_some hdd, if_neg ?_]
      rw [(huniv d).1]
      exact fun he => hne d t hdd he.symm

/-- Witness for C9: stopping at floor 1 (an up hall call there) clears the
call and a repeated `on_floor_changed` at floor 1 does not re-enter the stop
branch. -/
theorem idempotent_stop_witness :
    (1:ℤ) ∉
      ({ requested_destinations := ∅, requests_going_up := ∅, requests_going_down := ∅,
         directionality := none, current_floor := 1,
         motor_direction := none } : ElevatorState).requested_destinations ∧
    (on_floor_changed
        { requested_destinations := ∅, requests_going_up := ∅, requests_going_down := ∅,
          directionality := none, current_floor := 1, motor_direction := none } = none ∨
      on_floor_changed
        { requested_destinations := ∅, requests_going_up := ∅, requests_going_down := ∅,
          directionality := none, current_floor := 1, motor_direction := none } =
        some { requested_destinations := ∅, requests_going_up := ∅,
               requests_going_down := ∅, directionality := none, current_floor := 1,
               motor_direction := none }) := by
  have h := idempotent_stop
    { requested_destinations := ∅, requests_going_up := {1}, requests_going_down := ∅,
      directionality := none, current_floor := 1, motor_direction := none }
    { requested_destinations := ∅, requests_going_up := ∅, requests_going_down := ∅,
      directionality := none, current_floor := 1, motor_direction := none }
    (by decide) (by decide)
  exact ⟨h.1, h.2.2.2.2 none⟩

/-! ### The deadlock at a requested current floor -/

theorem update_dir_motor_none_eq_self {s : ElevatorState}
    (h1 : s.directionality = none) (h3 : s.motor_direction = none) :
    ({ s with directionality := none, motor_direction := none } : ElevatorState) = s := by
  cases s
  simp_all

theorem direction_to_self (c : ℤ) : direction_to c c = none := by
  simp [direction_to]

theorem current_destination_of_deadlocked {s : ElevatorState}
    (h1 : s.directionality = none) (h2 : s.current_floor ∈ allRequests s) :
    current_destination s = some s.current_floor := by
  rw [current_destination_of_none h1]
  exact destination_idle_of_mem_current h2

theorem on_ready_of_deadlocked {s : ElevatorState} (h1 : s.directionality = none)
    (h2 : s.current_floor ∈ allRequests s) (h3 : s.motor_direction = none) :
    on_ready s = s := by
  have hrel : on_ready_release s = s := on_ready_release_of_skip fun h => h.2 h1
  have hdest : current_destination (on_ready_release s) = some s.current_floor := by
    rw [hrel]
    exact current_destination_of_deadlocked h1 h2
  have hdir : (on_ready_release s).directionality = none := by rw [hrel]; exact h1
  rw [on_ready_of_some_none hdest hdir, hrel, direction_to_self]
  exact update_dir_motor_none_eq_self h1 h3

theorem allRequests_mono_insert_dest (s : ElevatorState) (floor : ℤ) :
    allRequests s ⊆
      allRequests { s with requested_destinations := insert floor s.requested_destinations } := by
  intro x hx
  rw [mem_allRequests] at hx ⊢
  rcases hx with h | h | h
  · exact Or.inl (Finset.mem_insert_of_mem h)
  · exact Or.inr (Or.inl h)
  · exact Or.inr (Or.inr h)

theorem allRequests_mono_insert_up (s : ElevatorState) (floor : ℤ) :
    allRequests s ⊆
      allRequests { s with requests_going_up := insert floor s.requests_going_up } := by
  intro x hx
  rw [mem_allRequests] at hx ⊢
  rcases hx with h | h | h
  · exact Or.inl h
  · exact Or.inr (Or.inl (Finset.mem_insert_of_mem h))
  · exact Or.inr (Or.inr h)

theorem allRequests_mono_insert_down (s : ElevatorState) (floor : ℤ) :
    allRequests s ⊆
      allRequests { s with requests_going_down := insert floor s.requests_going_down } := by
  intro x hx
  rw [mem_allRequests] at hx ⊢
  rcases hx with h | h | h
  · exact Or.inl h
  · exact Or.inr (Or.inl h)
  · exact Or.inr (Or.inr (Finset.mem_insert_of_mem h))

theorem deadlocked_apply {s : ElevatorState} (hd : Deadlocked s) (e : UserEvent)
    (hv : ValidUserEvent e) :
    ∃ s', applyUserEvent s e = some s' ∧ Deadlocked s' ∧
      s'.current_floor = s.current_floor ∧ allRequests s ⊆ allRequests s' := by
  obtain ⟨hdir, hmot, hmem⟩ := hd
  cases e with
  | call floor direction =>
    rcases hv with hv | hv
    · subst hv
      refine ⟨{ s with requests_going_up := insert floor s.requests_going_up }, ?_,
        ⟨hdir, hmot, allRequests_mono_insert_up s floor hmem⟩, rfl,
        allRequests_mono_insert_up s floor⟩
      show on_called s floor UP = _
      unfold on_called
      rw [if_pos rfl]
    · subst hv
      refine ⟨{ s with requests_going_down := insert floor s.requests_going_down }, ?_,
        ⟨hdir, hmot, allRequests_mono_insert_down s floor hmem⟩, rfl,
        allRequests_mono_insert_down s floor⟩
      show on_called s floor DOWN = _
      unfold on_called
      rw [if_neg (show DOWN ≠ UP by decide), if_pos rfl]
  | select floor =>
    refine ⟨_, rfl, ?_⟩
    unfold on_floor_selected
    rw [if_neg (fun h => h.1 hdir)]
    exact ⟨⟨hdir, hmot, allRequests_mono_insert_dest s floor hmem⟩, rfl,
      allRequests_mono_insert_dest s floor⟩
  | ready =>
    refine ⟨s, ?_, ⟨hdir, hmot, hmem⟩, rfl, Finset.Subset.refl _⟩
    unfold applyUserEvent
    rw [on_ready_of_deadlocked hdir hmem hmot]

theorem deadlocked_run {s : ElevatorState} (hd : Deadlocked s) (es : List UserEvent)
    (hv : ∀ e ∈ es, ValidUserEvent e) :
    ∃ s', runUserEvents s es = some s' ∧ Deadlocked s' ∧
      s'.current_floor = s.current_floor ∧ allRequests s ⊆ allRequests s' := by
  induction es generalizing s with
  | nil => exact ⟨s, rfl, hd, rfl, Finset.Subset.refl _⟩
  | cons e es ih =>
    obtain ⟨s1, h1, hd1, hc1, hsub1⟩ := deadlocked_apply hd e (hv e (List.mem_cons_self e es))
    obtain ⟨s2, h2, hd2, hc2, hsub2⟩ :=
      ih hd1 fun x hx => hv x (List.mem_cons_of_mem _ hx)
    refine ⟨s2, ?_, hd2, by rw [hc2, hc1], hsub1.trans hsub2⟩
    unfold runUserEvents
    rw [h1]
    exact h2

/-- C7: when the dispatcher is idle (no directionality, motor off) and the
current floor is itself a pending request, the computed destination is the
current floor, `on_ready` leaves the state unchanged (it writes
`direction_to` of the current floor, i.e. `None`, to the motor), and under
any further sequence of `on_ready`, `on_called` and `on_floor_selected`
events the motor stays off, the floor never changes, and no pending request
is ever removed. -/
theorem idle_at_requested_floor_deadlock (s : ElevatorState)
    (h1 : s.directionality = none) (h2 : s.current_floor ∈ allRequests s)
    (h3 : s.motor_direction = none) :
    current_destination s = some s.current_floor ∧
    on_ready s = s ∧
    ∀ es : List UserEvent, (∀ e ∈ es, ValidUserEvent e) →
      ∃ s', runUserEvents s es = some s' ∧
        s'.motor_direction = none ∧ s'.directionality = none ∧
        s'.current_floor = s.current_floor ∧
        allRequests s ⊆ allRequests s' := by
  refine ⟨current_destination_of_deadlocked h1 h2, on_ready_of_deadlocked h1 h2 h3,
    fun es hv => ?_⟩
  obtain ⟨s', hrun, hd', hc', hsub'⟩ := deadlocked_run ⟨h1, h3, h2⟩ es hv
  exact ⟨s', hrun, hd'.2.1, hd'.1, hc', hsub'⟩

/-- Witness for C7: idle at floor 1 with an up hall call at floor 1, the
destination is floor 1 itself and `on_ready` changes nothing. -/
theorem idle_at_requested_floor_deadlock_witness :
    current_destination
        { requested_destinations := ∅, requests_going_up := {1}, requests_going_down := ∅,
          directionality := none, current_floor := 1, motor_direction := none } =
      some 1 ∧
    on_ready
        { requested_destinations := ∅, requests_going_up := {1}, requests_going_down := ∅,
          directionality := none, current_floor := 1, motor_direction := none } =
      { requested_destinations := ∅, requests_going_up := {1}, requests_going_down := ∅,
        directionality := none, current_floor := 1, motor_direction := none } := by
  have h := idle_at_requested_floor_deadlock
    { requested_destinations := ∅, requests_going_up := {1}, requests_going_down := ∅,
      directionality := none, current_floor := 1, motor_direction := none }
    rfl (by decide) rfl
  exact ⟨h.1, h.2.1⟩

/-! ### Starvation of the call at the idle current floor -/

theorem step_starvedState : step starvedState = some starvedState := by decide

theorem runEvents_replicate_step_of_fix {s : ElevatorState} (h : step s = some s) :
    ∀ n : ℕ, runEvents s (List.replicate n Event.step) = some s := by
  intro n
  induction n with
  | zero => rfl
  | succ n ih =>
    rw [List.replicate_succ]
    unfold runEvents
    show (match step s with
      | none => none
      | some s' => runEvents s' (List.replicate n Event.step)) = some s
    rw [h]
    exact ih

/-- C6 counterexample: from the initial state, after `call(1, UP)` and 96
simulator steps (sixteen times `FLOOR_COUNT`), the hall call at floor 1 is
still pending and the elevator has not moved: the call is never serviced
within any number of steps proportional to `FLOOR_COUNT`. -/
theorem eventual_service_counterexample :
    runEvents initialState (Event.call 1 UP :: List.replicate 96 Event.step) =
      some starvedState ∧
    (1:ℤ) ∈ starvedState.requests_going_up ∧
    starvedState.motor_direction = none := by
  refine ⟨?_, by decide, rfl⟩
  unfold runEvents
  show (match applyEvent initialState (Event.call 1 UP) with
    | none => none
    | some s' => runEvents s' (List.replicate 96 Event.step)) = some starvedState
  rw [show applyEvent initialState (Event.call 1 UP) = some starvedState from by decide]
  exact runEvents_replicate_step_of_fix step_starvedState 96

/-- C6 amended: eventual service fails in general: a hall call issued at the
idle elevator's current floor is never serviced: for every number `n` of
further simulator steps the state is unchanged, the motor stays off, and the
call is still pending. -/
theorem eventual_service_starvation (n : ℕ) :
    runEvents initialState (Event.call 1 UP :: List.replicate n Event.step) =
      some starvedState ∧
    (1:ℤ) ∈ starvedState.requests_going_up ∧
    starvedState.motor_direction = none := by
  refine ⟨?_, by decide, rfl⟩
  unfold runEvents
  show (match applyEvent initialState (Event.call 1 UP) with
    | none => none
    | some s' => runEvents s' (List.replicate n Event.step)) = some starvedState
  rw [show applyEvent initialState (Event.call 1 UP) = some starvedState from by decide]
  exact runEvents_replicate_step_of_fix step_starvedState n

/-! ### Preservation of the simulation invariant -/

theorem allRequests_insert_dest (s : ElevatorState) (floor : ℤ) :
    allRequests
        { s with requested_destinations := insert floor s.requested_destinations } =
      insert floor (allRequests s) := by
  simp [allRequests, Finset.insert_union]

theorem allRequests_insert_up (s : ElevatorState) (floor : ℤ) :
    allRequests { s with requests_going_up := insert floor s.requests_going_up } =
      insert floor (allRequests s) := by
  simp [allRequests, Finset.union_insert, Finset.insert_union]

theorem allRequests_insert_down (s : ElevatorState) (floor : ℤ) :
    allRequests { s with requests_going_down := insert floor s.requests_going_down } =
      insert floor (allRequests s) := by
  simp [allRequests, Finset.union_insert]

theorem allRequests_discharge (s : ElevatorState) :
    allRequests (discharge s) = (allRequests s).erase s.current_floor := by
  simp [allRequests, discharge, Finset.erase_union_distrib]

theorem checkBounds_of_bounds {s : ElevatorState}
    (h : 1 ≤ s.current_floor ∧ s.current_floor ≤ FLOOR_COUNT) :
    checkBounds s = some s := by
  unfold checkBounds
  rw [if_pos h]

theorem step_of_motor_none {s : ElevatorState} (hm : s.motor_direction = none) :
    step s = checkBounds (on_ready s) := by
  unfold step
  rw [hm, if_neg (show ¬stepDelta (none : Option Dir) ≠ 0 by decide)]

theorem step_of_motor_up {s : ElevatorState} (hm : s.motor_direction = some Dir.up) :
    step s =
      (on_floor_changed { s with current_floor := s.current_floor + 1 }).bind
        checkBounds := by
  unfold step
  rw [hm, if_pos (show stepDelta (some Dir.up) ≠ 0 by decide)]
  rfl

theorem step_of_motor_down {s : ElevatorState} (hm : s.motor_direction = some Dir.down) :
    step s =
      (on_floor_changed { s with current_floor := s.current_floor + -1 }).bind
        checkBounds := by
  unfold step
  rw [hm, if_pos (show stepDelta (some Dir.down) ≠ 0 by decide)]
  rfl

theorem SimInv_initialState : SimInv initialState := by
  unfold SimInv
  decide

theorem SimInv_on_called {s : ElevatorState} (hs : SimInv s) {floor direction : ℤ}
    (hf1 : 1 ≤ floor) (hf2 : floor ≤ FLOOR_COUNT)
    (hd : direction = UP ∨ direction = DOWN) :
    ∃ s', on_called s floor direction = some s' ∧ SimInv s' := by
  obtain ⟨hb, hreq, hmot, hup, hdown⟩ := hs
  rcases hd with rfl | rfl
  · refine ⟨{ s with requests_going_up := insert floor s.requests_going_up }, ?_,
      hb, ?_, hmot, ?_, ?_⟩
    · unfold on_called
      rw [if_pos rfl]
    · intro f hf
      rw [allRequests_insert_up] at hf
      rcases Finset.mem_insert.mp hf with rfl | hf
      · exact ⟨hf1, hf2⟩
      · exact hreq f hf
    · intro hdir
      obtain ⟨g, hg, hlt⟩ := hup hdir
      exact ⟨g, by rw [allRequests_insert_up]; exact Finset.mem_insert_of_mem hg, hlt⟩
    · intro hdir
      obtain ⟨g, hg, hlt⟩ := hdown hdir
      exact ⟨g, by rw [allRequests_insert_up]; exact Finset.mem_insert_of_mem hg, hlt⟩
  · refine ⟨{ s with requests_going_down := insert floor s.requests_going_down }, ?_,
      hb, ?_, hmot, ?_, ?_⟩
    · unfold on_called
      rw [if_neg (show DOWN ≠ UP by decide), if_pos rfl]
    · intro f hf
      rw [allRequests_insert_down] at hf
      rcases Finset.mem_insert.mp hf with rfl | hf
      · exact ⟨hf1, hf2⟩
      · exact hreq f hf
    · intro hdir
      obtain ⟨g, hg, hlt⟩ := hup hdir
      exact ⟨g, by rw [allRequests_insert_down]; exact Finset.mem_insert_of_mem hg, hlt⟩
    · intro hdir
      obtain ⟨g, hg, hlt⟩ := hdown hdir
      exact ⟨g, by rw [allRequests_insert_down]; exact Finset.mem_insert_of_mem hg, hlt⟩

theorem SimInv_on_floor_selected {s : ElevatorState} (hs : SimInv s) {floor : ℤ}
    (hf1 : 1 ≤ floor) (hf2 : floor ≤ FLOOR_COUNT) :
    SimInv (on_floor_selected s floor) := by
  obtain ⟨hb, hreq, hmot, hup, hdown⟩ := hs
  unfold on_floor_selected
  split
  · exact ⟨hb, hreq, hmot, hup, hdown⟩
  · refine ⟨hb, ?_, hmot, ?_, ?_⟩
    · intro f hf
      rw [allRequests_insert_dest] at hf
      rcases Finset.mem_insert.mp hf with rfl | hf
      · exact ⟨hf1, hf2⟩
      · exact hreq f hf
    · intro hdir
      obtain ⟨g, hg, hlt⟩ := hup hdir
      exact ⟨g, by rw [allRequests_insert_dest]; exact Finset.mem_insert_of_mem hg, hlt⟩
    · intro hdir
      obtain ⟨g, hg, hlt⟩ := hdown hdir
      exact ⟨g, by rw [allRequests_insert_dest]; exact Finset.mem_insert_of_mem hg, hlt⟩

theorem SimInv_on_ready {s : ElevatorState} (hs : SimInv s)
    (hm : s.motor_direction = none) :
    SimInv (on_ready s) ∧ (on_ready s).current_floor = s.current_floor := by
  obtain ⟨hb, hreq, hmot, hup, hdown⟩ := hs
  by_cases hrel : current_destination s = none ∧ s.directionality ≠ none
  · obtain ⟨hdnone, hdne⟩ := hrel
    cases hnd : current_destination { s with directionality := none } with
    | none =>
      have hr := on_ready_release_of_idle hdnone hdne hnd
      have h2 : current_destination (on_ready_release s) = none := by rw [hr]; exact hnd
      rw [on_ready_of_none h2, hr]
      exact ⟨⟨hb, hreq, Or.inl hm, fun h => Option.noConfusion h,
        fun h => Option.noConfusion h⟩, rfl⟩
    | some nd =>
      have hndmem : nd ∈ allRequests s := by
        have h := current_destination_mem hnd
        exact h
      have hr := on_ready_release_of_reacquire hdnone hdne hnd
      rcases lt_trichotomy s.current_floor nd with hlt | heq | hgt
      · have hdt : direction_to s.current_floor nd = some Dir.up := by
          unfold direction_to
          rw [if_pos hlt]
        rw [hdt] at hr
        have hdirrel : (on_ready_release s).directionality = some Dir.up := by rw [hr]
        obtain ⟨t, ht⟩ : ∃ t, current_destination (on_ready_release s) = some t := by
          rw [hr, current_destination_of_up
            (show ({ s with directionality := some Dir.up } :
              ElevatorState).directionality = some Dir.up from rfl)]
          exact destination_up_isSome hndmem (le_of_lt hlt)
        rw [on_ready_of_some_some ht hdirrel, hr]
        exact ⟨⟨hb, hreq, Or.inr rfl, fun _ => ⟨nd, hndmem, hlt⟩,
          fun h => absurd h (by simp)⟩, rfl⟩
      · have hdt : direction_to s.current_floor nd = none := by
          rw [heq]
          exact direction_to_self nd
        rw [hdt] at hr
        have hdirrel : (on_ready_release s).directionality = none := by rw [hr]
        have ht : current_destination (on_ready_release s) = some nd := by
          rw [hr]
          exact hnd
        have hdt2 : direction_to (on_ready_release s).current_floor nd = none := by
          rw [hr]
          exact hdt
        rw [on_ready_of_some_none ht hdirrel, hdt2, hr]
        exact ⟨⟨hb, hreq, Or.inl rfl, fun h => Option.noConfusion h,
          fun h => Option.noConfusion h⟩, rfl⟩
      · have hdt : direction_to s.current_floor nd = some Dir.down := by
          unfold direction_to
          rw [if_neg (not_lt.mpr (le_of_lt hgt)), if_pos hgt]
        rw [hdt] at hr
        have hdirrel : (on_ready_release s).directionality = some Dir.down := by rw [hr]
        obtain ⟨t, ht⟩ : ∃ t, current_destination (on_ready_release s) = some t := by
          rw [hr, current_destination_of_down
            (show ({ s with directionality := some Dir.down } :
              ElevatorState).directionality = some Dir.down from rfl)]
          exact destination_down_isSome hndmem (le_of_lt hgt)
        rw [on_ready_of_some_some ht hdirrel, hr]
        exact ⟨⟨hb, hreq, Or.inr rfl, fun h => absurd h (by simp),
          fun _ => ⟨nd, hndmem, hgt⟩⟩, rfl⟩
  · have hr := on_ready_release_of_skip hrel
    cases hdest : current_destination s with
    | none =>
      have h2 : current_destination (on_ready_release s) = none := by rw [hr]; exact hdest
      rw [on_ready_of_none h2, hr]
      exact ⟨⟨hb, hreq, Or.inl hm, fun h => Option.noConfusion h,
        fun h => Option.noConfusion h⟩, rfl⟩
    | some t =>
      have ht : current_destination (on_ready_release s) = some t := by rw [hr]; exact hdest
      have htmem : t ∈ allRequests s := current_destination_mem hdest
      cases hdir : s.directionality with
      | some dd =>
        have h2 : (on_ready_release s).directionality = some dd := by rw [hr]; exact hdir
        rw [on_ready_of_some_some ht h2, hr]
        exact ⟨⟨hb, hreq, Or.inr hdir.symm, hup, hdown⟩, rfl⟩
      | none =>
        have h2 : (on_ready_release s).directionality = none := by rw [hr]; exact hdir
        rcases lt_trichotomy s.current_floor t with hlt | heq | hgt
        · have hdt2 : direction_to (on_ready_release s).current_floor t = some Dir.up := by
            rw [hr]
            unfold direction_to
            rw [if_pos hlt]
          rw [on_ready_of_some_none ht h2, hdt2, hr]
          exact ⟨⟨hb, hreq, Or.inr rfl, fun _ => ⟨t, htmem, hlt⟩,
            fun h => absurd h (by simp)⟩, rfl⟩
        · have hdt2 : direction_to (on_ready_release s).current_floor t = none := by
            rw [hr, heq]
            exact direction_to_self t
          rw [on_ready_of_some_none ht h2, hdt2, hr]
          exact ⟨⟨hb, hreq, Or.inl rfl, fun h => Option.noConfusion h,
            fun h => Option.noConfusion h⟩, rfl⟩
        · have hdt2 : direction_to (on_ready_release s).current_floor t = some Dir.down := by
            rw [hr]
            unfold direction_to
            rw [if_neg (not_lt.mpr (le_of_lt hgt)), if_pos hgt]
          rw [on_ready_of_some_none ht h2, hdt2, hr]
          exact ⟨⟨hb, hreq, Or.inr rfl, fun h => absurd h (by simp),
            fun _ => ⟨t, htmem, hgt⟩⟩, rfl⟩

theorem SimInv_on_floor_changed_up (sm : ElevatorState)
    (hb1 : 1 ≤ sm.current_floor)
    (hreq : ∀ f ∈ allRequests sm, 1 ≤ f ∧ f ≤ FLOOR_COUNT)
    (hdir : sm.directionality = some Dir.up)
    (hmot : sm.motor_direction = some Dir.up)
    (hex : ∃ f ∈ allRequests sm, sm.current_floor ≤ f) :
    ∃ s2, on_floor_changed sm = some s2 ∧ SimInv s2 ∧
      s2.current_floor = sm.current_floor := by
  obtain ⟨f, hf, hcf⟩ := hex
  obtain ⟨t, ht⟩ := destination_up_isSome hf hcf
  have htdest : current_destination sm = some t := by
    rw [current_destination_of_up hdir]
    exact ht
  have htmem : t ∈ allRequests sm := current_destination_mem htdest
  have htle : sm.current_floor ≤ t := current_destination_up_le hdir htdest
  have ht6 : t ≤ FLOOR_COUNT := (hreq t htmem).2
  have hfl6 : sm.current_floor ≤ FLOOR_COUNT := le_trans htle ht6
  by_cases hstop : sm.current_floor = t
  · rw [on_floor_changed_of_some htdest, if_pos hstop]
    by_cases hrem : current_destination (discharge sm) = none
    · rw [if_pos hrem]
      refine ⟨_, rfl, ⟨⟨hb1, hfl6⟩, ?_, Or.inl rfl, fun h => Option.noConfusion h,
        fun h => Option.noConfusion h⟩, rfl⟩
      intro g hg
      have hg2 : g ∈ allRequests (discharge sm) := hg
      rw [allRequests_discharge] at hg2
      exact hreq g (Finset.mem_of_mem_erase hg2)
    · rw [if_neg hrem]
      obtain ⟨t2, ht2⟩ := Option.ne_none_iff_exists'.mp hrem
      have hdir2 : (discharge sm).directionality = some Dir.up := hdir
      have ht2le : (discharge sm).current_floor ≤ t2 :=
        current_destination_up_le hdir2 ht2
      have ht2mem : t2 ∈ allRequests (discharge sm) := current_destination_mem ht2
      have ht2ne : t2 ≠ sm.current_floor := by
        intro he
        exact current_floor_not_mem_discharge sm (he ▸ ht2mem)
      refine ⟨_, rfl, ⟨⟨hb1, hfl6⟩, ?_, Or.inl rfl,
        fun _ => ⟨t2, ht2mem, lt_of_le_of_ne ht2le (Ne.symm ht2ne)⟩,
        fun h => absurd (hdir.symm.trans h) (by simp)⟩, rfl⟩
      intro g hg
      rw [allRequests_discharge] at hg
      exact hreq g (Finset.mem_of_mem_erase hg)
  · rw [on_floor_changed_of_some htdest, if_neg hstop]
    refine ⟨sm, rfl, ⟨⟨hb1, hfl6⟩, hreq, Or.inr (hmot.trans hdir.symm),
      fun _ => ⟨t, htmem, lt_of_le_of_ne htle hstop⟩,
      fun h => absurd (hdir.symm.trans h) (by simp)⟩, rfl⟩

theorem SimInv_on_floor_changed_down (sm : ElevatorState)
    (hb6 : sm.current_floor ≤ FLOOR_COUNT)
    (hreq : ∀ f ∈ allRequests sm, 1 ≤ f ∧ f ≤ FLOOR_COUNT)
    (hdir : sm.directionality = some Dir.down)
    (hmot : sm.motor_direction = some Dir.down)
    (hex : ∃ f ∈ allRequests sm, f ≤ sm.current_floor) :
    ∃ s2, on_floor_changed sm = some s2 ∧ SimInv s2 ∧
      s2.current_floor = sm.current_floor := by
  obtain ⟨f, hf, hcf⟩ := hex
  obtain ⟨t, ht⟩ := destination_down_isSome hf hcf
  have htdest : current_destination sm = some t := by
    rw [current_destination_of_down hdir]
    exact ht
  have htmem : t ∈ allRequests sm := current_destination_mem htdest
  have htle : t ≤ sm.current_floor := current_destination_down_le hdir htdest
  have ht1 : 1 ≤ t := (hreq t htmem).1
  have hfl1 : 1 ≤ sm.current_floor := le_trans ht1 htle
  by_cases hstop : sm.current_floor = t
  · rw [on_floor_changed_of_some htdest, if_pos hstop]
    by_cases hrem : current_destination (discharge sm) = none
    · rw [if_pos hrem]
      refine ⟨_, rfl, ⟨⟨hfl1, hb6⟩, ?_, Or.inl rfl, fun h => Option.noConfusion h,
        fun h => Option.noConfusion h⟩, rfl⟩
      intro g hg
      have hg2 : g ∈ allRequests (discharge sm) := hg
      rw [allRequests_discharge] at hg2
      exact hreq g (Finset.mem_of_mem_erase hg2)
    · rw [if_neg hrem]
      obtain ⟨t2, ht2⟩ := Option.ne_none_iff_exists'.mp hrem
      have hdir2 : (discharge sm).directionality = some Dir.down := hdir
      have ht2le : t2 ≤ (discharge sm).current_floor :=
        current_destination_down_le hdir2 ht2
      have ht2mem : t2 ∈ allRequests (discharge sm) := current_destination_mem ht2
      have ht2ne : t2 ≠ sm.current_floor := by
        intro he
        exact current_floor_not_mem_discharge sm (he ▸ ht2mem)
      refine ⟨_, rfl, ⟨⟨hfl1, hb6⟩, ?_, Or.inl rfl,
        fun h => absurd (hdir.symm.trans h) (by simp),
        fun _ => ⟨t2, ht2mem, lt_of_le_of_ne ht2le ht2ne⟩⟩, rfl⟩
      intro g hg
      rw [allRequests_discharge] at hg
      exact hreq g (Finset.mem_of_mem_erase hg)
  · rw [on_floor_changed_of_some htdest, if_neg hstop]
    refine ⟨sm, rfl, ⟨⟨hfl1, hb6⟩, hreq, Or.inr (hmot.trans hdir.symm),
      fun h => absurd (hdir.symm.trans h) (by simp),
      fun _ => ⟨t, htmem, lt_of_le_of_ne htle (fun he => hstop he.symm)⟩⟩, rfl⟩

theorem SimInv_step {s : ElevatorState} (hs : SimInv s) :
    ∃ s', step s = some s' ∧ SimInv s' := by
  obtain ⟨hb, hreq, hmot, hup, hdown⟩ := hs
  cases hm : s.motor_direction with
  | none =>
    obtain ⟨hinv, hfl⟩ := SimInv_on_ready ⟨hb, hreq, hmot, hup, hdown⟩ hm
    refine ⟨on_ready s, ?_, hinv⟩
    rw [step_of_motor_none hm]
    exact checkBounds_of_bounds hinv.1
  | some d =>
    have hdireq : s.directionality = some d := by
      rcases hmot with h | h
      · rw [hm] at h
        exact absurd h (by simp)
      · rw [hm] at h
        exact h.symm
    cases d with
    | up =>
      obtain ⟨f, hf, hlt⟩ := hup hdireq
      obtain ⟨s2, hofc, hinv2, hfl2⟩ := SimInv_on_floor_changed_up
        { s with current_floor := s.current_floor + 1 }
        (by
          show (1:ℤ) ≤ s.current_floor + 1
          have := hb.1
          omega)
        hreq hdireq hm
        ⟨f, hf, by
          show s.current_floor + 1 ≤ f
          omega⟩
      refine ⟨s2, ?_, hinv2⟩
      rw [step_of_motor_up hm, hofc]
      exact checkBounds_of_bounds hinv2.1
    | down =>
      obtain ⟨f, hf, hlt⟩ := hdown hdireq
      obtain ⟨s2, hofc, hinv2, hfl2⟩ := SimInv_on_floor_changed_down
        { s with current_floor := s.current_floor + -1 }
        (by
          show s.current_floor + -1 ≤ FLOOR_COUNT
          have := hb.2
          omega)
        hreq hdireq hm
        ⟨f, hf, by
          show f ≤ s.current_floor + -1
          omega⟩
      refine ⟨s2, ?_, hinv2⟩
      rw [step_of_motor_down hm, hofc]
      exact checkBounds_of_bounds hinv2.1

theorem SimInv_applyEvent {s : ElevatorState} {e : Event} (hs : SimInv s)
    (hv : ValidEvent e) :
    ∃ s', applyEvent s e = some s' ∧ SimInv s' := by
  cases e with
  | call floor direction =>
    obtain ⟨hf1, hf2, hd⟩ := hv
    exact SimInv_on_called hs hf1 hf2 hd
  | select floor =>
    exact ⟨_, rfl, SimInv_on_floor_selected hs hv.1 hv.2⟩
  | step => exact SimInv_step hs

theorem SimInv_runEvents {s : ElevatorState} (hs : SimInv s) {es : List Event}
    (hv : ∀ e ∈ es, ValidEvent e) :
    ∃ s', runEvents s es = some s' ∧ SimInv s' := by
  induction es generalizing s with
  | nil => exact ⟨s, rfl, hs⟩
  | cons e es ih =>
    obtain ⟨s1, h1, hs1⟩ := SimInv_applyEvent hs (hv e (List.mem_cons_self e es))
    obtain ⟨s2, h2, hs2⟩ := ih hs1 fun x hx => hv x (List.mem_cons_of_mem _ hx)
    refine ⟨s2, ?_, hs2⟩
    unfold runEvents
    rw [h1]
    exact h2

/-- C5: from the initial state, every finite sequence of valid events (hall
calls with floors in `[1, FLOOR_COUNT]` and directions `UP`/`DOWN`, floor
selections in range, and simulator steps) runs with no assertion failure —
in particular `on_floor_changed` is never reached without a computable
destination — and ends with the current floor inside `[1, FLOOR_COUNT]`.
Since every prefix of a valid sequence is valid, the current floor never
leaves the range along the way. -/
theorem no_illegal_state (es : List Event) (hv : ∀ e ∈ es, ValidEvent e) :
    ∃ s', runEvents initialState es = some s' ∧
      1 ≤ s'.current_floor ∧ s'.current_floor ≤ FLOOR_COUNT := by
  obtain ⟨s', h1, h2⟩ := SimInv_runEvents SimInv_initialState hv
  exact ⟨s', h1, h2.1.1, h2.1.2⟩

/-- Witness for C5: a concrete valid sequence (call at 5 going down, three
steps) runs without any assertion failure. -/
theorem no_illegal_state_witness :
    runEvents initialState [Event.call 5 DOWN, Event.step, Event.step, Event.step] ≠
      none := by
  obtain ⟨s', h1, -, -⟩ := no_illegal_state
    [Event.call 5 DOWN, Event.step, Event.step, Event.step] (by decide)
  rw [h1]
  simp

/-- C8: while committed `Up` (respectively `Down`) every computed destination
is at or above (at or below) the current floor, and in every reachable state
the motor command is off or equals the committed directionality — so the
motor never runs against the commitment and successive stops while committed
are monotone in the travel direction. -/
theorem direction_monotonic :
    (∀ s t, s.directionality = some Dir.up → current_destination s = some t →
      s.current_floor ≤ t) ∧
    (∀ s t, s.directionality = some Dir.down → current_destination s = some t →
      t ≤ s.current_floor) ∧
    (∀ es s', (∀ e ∈ es, ValidEvent e) → runEvents initialState es = some s' →
      s'.motor_direction = none ∨ s'.motor_direction = s'.directionality) := by
  refine ⟨fun s t hd h => current_destination_up_le hd h,
    fun s t hd h => current_destination_down_le hd h, ?_⟩
  intro es s' hv hrun
  obtain ⟨s2, h1, h2⟩ := SimInv_runEvents SimInv_initialState hv
  rw [hrun] at h1
  obtain rfl : s' = s2 := by injection h1
  exact h2.2.2.1

/-- Witness for C8: committed up at floor 2 with floor 5 selected, the
destination 5 is at or above floor 2; the initial state is reachable by the
empty sequence and its motor is off. -/
theorem direction_monotonic_witness :
    ({ requested_destinations := {5}, requests_going_up := ∅, requests_going_down := ∅,
       directionality := some Dir.up, current_floor := 2,
       motor_direction := some Dir.up } : ElevatorState).current_floor ≤ 5 ∧
    (initialState.motor_direction = none ∨
      initialState.motor_direction = initialState.directionality) := by
  constructor
  · exact direction_monotonic.1
      { requested_destinations := {5}, requests_going_up := ∅, requests_going_down := ∅,
        directionality := some Dir.up, current_floor := 2,
        motor_direction := some Dir.up } 5 rfl (by decide)
  · exact direction_monotonic.2.2 [] initialState (by simp) rfl

/-- Witness for the amended C6 at a concrete number of steps. -/
theorem eventual_service_starvation_witness :
    runEvents initialState (Event.call 1 UP :: List.replicate 12 Event.step) =
      some starvedState :=
  (eventual_service_starvation 12).1
